import Mathlib

set_option maxRecDepth 8000

/-!
Verification development for the `codesearch` repository.

The two core components are shallowly embedded here:

* the result ranker (`db/search.go`): `filterByDistance`,
  `calculateAdaptiveThreshold`, `SearchWithSimilarity`;
* the reconciler (`sync` package): `RunSync` and the storage primitives
  from `db/db.go` (`SaveFileEmbedding`, `UpdateFileEmbedding`,
  `DeleteFileAndVector`).

Go `float64` distances are embedded as `ℚ` (exact rationals); Go slices
become `List`; the sqlite tables become explicit list-based states; the
fallible embedding provider and fallible storage layer become boolean
oracles (success/failure per call).
-/

/-- Structure `SearchResult` from `db/search.go`: id, file path and distance. -/
structure SearchResult where
  id : Int
  file : String
  distance : ℚ
deriving DecidableEq, Repr

instance : Inhabited SearchResult := ⟨⟨0, "", 0⟩⟩

/-- Structure `SearchOptions` from `db/search.go`.  The Go `int` fields `MinResults`
and `MaxResults` are result counts, embedded as `Nat` (every call site in
the source passes non-negative literals). -/
structure SearchOptions where
  maxDistance : ℚ
  minResults : Nat
  maxResults : Nat
  useAdaptive : Bool
deriving DecidableEq, Repr

/-- Function `DefaultSearchOptions` from `db/search.go`. -/
def defaultSearchOptions : SearchOptions :=
  { maxDistance := 8/10, minResults := 2, maxResults := 20, useAdaptive := true }

/-- The appending loop shared by both branches of `filterByDistance`
(`db/search.go` lines 94-105): walk the results, appending a hit to the
accumulator when its distance is within `threshold` and the accumulator
still holds fewer than `maxResults` items. -/
def appendWithin (threshold : ℚ) (maxResults : Nat) :
    List SearchResult → List SearchResult → List SearchResult
  | acc, [] => acc
  | acc, r :: rest =>
    if r.distance ≤ threshold ∧ acc.length < maxResults then
      appendWithin threshold maxResults (acc ++ [r]) rest
    else
      appendWithin threshold maxResults acc rest

/-- The loop-body gap expression of `calculateAdaptiveThreshold`:
`results[i].Distance - results[i-1].Distance`. -/
def gapAt (results : List SearchResult) (i : Nat) : ℚ :=
  (results.getD i default).distance - (results.getD (i-1) default).distance

/-- Function `calculateAdaptiveThreshold` from `db/search.go`: for `i := 1; i <
len(results) && i < 20; i++` track the largest gap
`results[i].Distance - results[i-1].Distance` (strict improvement, so the
first maximum wins), starting from `largestGap = 0, gapIndex = 0`.  The Go
literal `0.05` is embedded as `1/20`. -/
def calculateAdaptiveThreshold (results : List SearchResult) (maxThreshold : ℚ) : ℚ :=
  if results.length ≤ 1 then maxThreshold
  else
    let best := (List.range' 1 (min results.length 20 - 1)).foldl
      (fun (best : ℚ × Nat) i =>
        let gap := gapAt results i
        if gap > best.1 then (gap, i) else best)
      ((0 : ℚ), (0 : Nat))
    if best.1 > 1/20 ∧ best.2 > 0 then
      let adaptiveThreshold :=
        (results.getD (best.2 - 1) default).distance + best.1 / 2
      if adaptiveThreshold < maxThreshold then adaptiveThreshold else maxThreshold
    else maxThreshold

/-- The adaptive cutoff as claim C4 words it, modelled from the claim for
comparison with the code: it scans "the first `min(20, len(rawHits))`
consecutive pairs", i.e. pairs `(i-1, i)` for `1 ≤ i ≤ min(20, len - 1)`
(the list only has `len - 1` consecutive pairs), whereas the code stops at
`i < 20`, scanning only `min(len, 20) - 1` pairs. -/
def adaptiveCutoffClaim (results : List SearchResult) (maxThreshold : ℚ) : ℚ :=
  if results.length ≤ 1 then maxThreshold
  else
    let best := (List.range' 1 (min 20 (results.length - 1))).foldl
      (fun (best : ℚ × Nat) i =>
        let gap := gapAt results i
        if gap > best.1 then (gap, i) else best)
      ((0 : ℚ), (0 : Nat))
    if best.1 > 1/20 ∧ best.2 > 0 then
      let adaptiveThreshold :=
        (results.getD (best.2 - 1) default).distance + best.1 / 2
      if adaptiveThreshold < maxThreshold then adaptiveThreshold else maxThreshold
    else maxThreshold

/-- The `filtered` list built by `filterByDistance` before the minimum-results
check: the adaptive branch filters against the adaptive threshold, the simple
branch against `MaxDistance` (`db/search.go` lines 90-106). -/
def thresholdFiltered (results : List SearchResult) (opts : SearchOptions) :
    List SearchResult :=
  if opts.useAdaptive then
    appendWithin (calculateAdaptiveThreshold results opts.maxDistance) opts.maxResults [] results
  else
    appendWithin opts.maxDistance opts.maxResults [] results

/-- Function `filterByDistance` from `db/search.go` lines 83-121, including the
minimum-results floor: `minCount` starts at `MinResults`, is clamped to
`len(results)`, then clamped to `MaxResults`, and the first `minCount` raw
results are returned whenever the filtered count is below `MinResults`. -/
def filterByDistance (results : List SearchResult) (opts : SearchOptions) :
    List SearchResult :=
  if results.isEmpty then results
  else
    let filtered := thresholdFiltered results opts
    if filtered.length < opts.minResults ∧ 0 < results.length then
      let minCount := opts.minResults
      let minCount := if minCount > results.length then results.length else minCount
      let minCount := if minCount > opts.maxResults then opts.maxResults else minCount
      results.take minCount
    else
      filtered

/-- The `SearchOptions` value built by `SearchWithSimilarity`
(`db/search.go` lines 171-177): `MaxDistance = 1 - minSimilarity`,
`MinResults = 1`, `UseAdaptive = true`. -/
def similaritySearchOptions (minSimilarity : ℚ) (maxResults : Nat) : SearchOptions :=
  { maxDistance := 1 - minSimilarity
    minResults := 1
    maxResults := maxResults
    useAdaptive := true }

/-- Pure core of `SearchWithSimilarity` (`db/search.go` lines 171-190):
rank the raw hits with the converted options, then report every distance
back as `1 - distance`. -/
def searchWithSimilarityRank (rawHits : List SearchResult) (minSimilarity : ℚ)
    (maxResults : Nat) : List SearchResult :=
  (filterByDistance rawHits (similaritySearchOptions minSimilarity maxResults)).map
    (fun r => { r with distance := 1 - r.distance })

/-- Constant `minSimilarity := 0.03` from `search.Run`. -/
def findMinSimilarity : ℚ := 3/100

/-- Constant `limit := 10` from `search.Run`. -/
def findLimit : Nat := 10

/-- Pure core of the `find` command (`search.Run`): rank the raw hits for
the query embedding with `minSimilarity 0.03` and `limit 10`. -/
def findRank (rawHits : List SearchResult) : List SearchResult :=
  searchWithSimilarityRank rawHits findMinSimilarity findLimit

/-- Type `models.Embedding`, a `[]float64`, embedded as a list of rationals. -/
def Embedding := List ℚ
deriving DecidableEq, Inhabited

/-- Structure `models.EmbeddingData` (litellm response item). -/
structure EmbeddingData where
  object : String
  embedding : Embedding
  index : Int
deriving Inhabited

/-- Structure `models.EmbeddingResponse`: `Embeddings` is the ollama field, `Data`
the litellm field (the `Model`/`Usage` metadata carries no behavior). -/
structure EmbeddingResponse where
  object : String
  embeddings : List Embedding
  data : List EmbeddingData

/-- Method `EmbeddingResponse.GetEmbeddings` from `models/embedding.go`: first
element of `Embeddings` if non-empty, else first element of `Data`, else
the nil pointer — embedded as `Option` (`none` = Go `nil`). -/
def EmbeddingResponse.getEmbeddings (er : EmbeddingResponse) : Option Embedding :=
  match er.embeddings with
  | e :: _ => some e
  | [] =>
    match er.data with
    | d :: _ => some d.embedding
    | [] => none

/-- Outcome of the per-file body of `processProjectFiles` / the new-file
branch of `RunSync` for one file, as a function of what the provider call
returned (`none` = `client.Embeddings` returned an error). -/
inductive FileStepOutcome where
  | skippedProviderError
  | crashedNilDeref
  | saved (dim : Nat)
deriving DecidableEq, Repr

/-- Per-file step of the sync/build loop: an error from the provider is
logged and skipped (`continue`); otherwise the code calls
`db.SaveFileEmbedding(dbConn, relativePath, res.GetEmbeddings())`, and
`SaveFileEmbedding` dereferences the returned pointer in
`embedding.Float32()` — when `GetEmbeddings` returned the nil pointer this
is a run-time panic (no nil check exists on this path). -/
def syncFileStep (providerResult : Option EmbeddingResponse) : FileStepOutcome :=
  match providerResult with
  | none => .skippedProviderError
  | some res =>
    match res.getEmbeddings with
    | none => .crashedNilDeref
    | some emb => .saved (List.length emb)

/-- A provider response that succeeded (HTTP 200, decodable body) but holds
no embedding in either field. -/
def emptyEmbeddingResponse : EmbeddingResponse :=
  { object := "list", embeddings := [], data := [] }

namespace VecStore

/-- State of the two sqlite tables touched by the three storage
primitives: `files` rows `(id, file)`, the `context_vectors` rowids, and
the next AUTOINCREMENT id. -/
structure Store where
  files : List (Nat × String)
  vectors : List Nat
  nextId : Nat
deriving DecidableEq, Repr

/-- Effect of `INSERT INTO files (file) VALUES (?)`. -/
def insFile (s : Store) (path : String) : Store :=
  { s with files := s.files ++ [(s.nextId, path)], nextId := s.nextId + 1 }

/-- Effect of `INSERT INTO context_vectors (rowid, embedding) VALUES (?, ...)`. -/
def insVec (s : Store) (rowid : Nat) : Store :=
  { s with vectors := s.vectors ++ [rowid] }

/-- Effect of `DELETE FROM files WHERE id = ?`. -/
def delFile (s : Store) (fid : Nat) : Store :=
  { s with files := s.files.filter (fun r => r.1 ≠ fid) }

/-- Effect of `DELETE FROM context_vectors WHERE rowid = ?`. -/
def delVec (s : Store) (fid : Nat) : Store :=
  { s with vectors := s.vectors.filter (fun v => v ≠ fid) }

/-- Function `db.SaveFileEmbedding` issues two separate auto-committed statements
(no transaction): insert the file row, then insert the vector at the new
id.  `stmtsOk` is the number of statements that succeed before the
operation fails (`stmtsOk ≥ 2` = full success); each completed statement
stays committed. -/
def saveFileEmbeddingRun (s : Store) (path : String) (stmtsOk : Nat) : Store :=
  if stmtsOk = 0 then s
  else if stmtsOk = 1 then insFile s path
  else insVec (insFile s path) s.nextId

/-- Function `db.UpdateFileEmbedding` runs delete-vector, delete-file, insert-file,
insert-vector inside one transaction (`tx.Begin` … `tx.Commit`, rollback on
any error): with fewer than 4 statements succeeding the whole transaction
rolls back and the store is unchanged. -/
def updateFileEmbeddingRun (s : Store) (fid : Nat) (path : String) (stmtsOk : Nat) : Store :=
  if stmtsOk < 4 then s
  else
    let s1 := delFile (delVec s fid) fid
    insVec (insFile s1 path) s1.nextId

/-- Function `db.DeleteFileAndVector` runs delete-vector, delete-file inside one
transaction, rolled back unless both succeed. -/
def deleteFileAndVectorRun (s : Store) (fid : Nat) (stmtsOk : Nat) : Store :=
  if stmtsOk < 2 then s
  else delFile (delVec s fid) fid

/-- The pairing invariant: every file row id has a vector record and every
vector record has a file row. -/
def inv (s : Store) : Prop :=
  (∀ r ∈ s.files, r.1 ∈ s.vectors) ∧ (∀ v ∈ s.vectors, ∃ p, (v, p) ∈ s.files)

instance (s : Store) : Decidable (inv s) := by
  unfold inv
  have : ∀ v : Nat, Decidable (∃ p, (v, p) ∈ s.files) := fun v =>
    decidable_of_iff (∃ r ∈ s.files, r.1 = v) (by
      constructor
      · rintro ⟨⟨v', p⟩, hm, rfl⟩; exact ⟨p, hm⟩
      · rintro ⟨p, hm⟩; exact ⟨(v, p), hm, rfl⟩)
  exact instDecidableAnd

end VecStore

/-- A row of the `files` table as seen by the reconciler (`models.File`
without the timestamp: rows are kept in ascending `created_at` order, so
the list order is the `GetFilesToSync` order). -/
structure FileRow where
  id : Nat
  path : String
deriving DecidableEq, Repr

/-- The `files` table (rows in ascending `created_at` = insertion order)
together with the next AUTOINCREMENT id. -/
structure DBState where
  rows : List FileRow
  nextId : Nat
deriving DecidableEq, Repr

/-- Function `db.SaveFileEmbedding` at the reconciler's level of abstraction:
append a fresh row for the path (new id, newest `created_at`). -/
def dbSave (st : DBState) (path : String) : DBState :=
  { rows := st.rows ++ [⟨st.nextId, path⟩], nextId := st.nextId + 1 }

/-- Function `db.DeleteFileAndVector`: remove the row with the given id. -/
def dbDelete (st : DBState) (fid : Nat) : DBState :=
  { st with rows := st.rows.filter (fun r => r.id ≠ fid) }

/-- Function `db.UpdateFileEmbedding`: delete the old row, insert a fresh row with
the same path (new id, newest `created_at`). -/
def dbUpdate (st : DBState) (fid : Nat) (path : String) : DBState :=
  dbSave (dbDelete st fid) path

/-- Function `db.GetProjectFilePaths`: the set of stored paths (as a list). -/
def dbPaths (st : DBState) : List String :=
  st.rows.map (·.path)

/-- Function `db.GetFilesToSync`: all rows in ascending `created_at` order. -/
def dbFilesToSync (st : DBState) : List FileRow :=
  st.rows

/-- Observable reconciliation actions of `RunSync`: a new file embedded and
inserted, an existing row re-embedded and replaced, a row deleted. -/
inductive SyncOp where
  | insertNew (path : String)
  | reembed (id : Nat) (path : String)
  | deleteRow (id : Nat) (path : String)
deriving DecidableEq, Repr

/-- Path mentioned by a sync action. -/
def SyncOp.path : SyncOp → String
  | .insertNew p => p
  | .reembed _ p => p
  | .deleteRow _ p => p

/-- Well-formedness maintained by sqlite AUTOINCREMENT: row ids are
distinct and below the next id. -/
def wfDB (st : DBState) : Prop :=
  (st.rows.map (·.id)).Nodup ∧ ∀ r ∈ st.rows, r.id < st.nextId

instance (st : DBState) : Decidable (wfDB st) := by
  unfold wfDB; infer_instance

/-- First loop of `RunSync` ("Processing new files"): for every local file
whose path is not in the path set `stored` fetched before the loop, read
and embed it (failure: log and `continue`, modelled by the success oracle
`embedOk`) and insert it with `SaveFileEmbedding`. -/
def processNewFiles (embedOk : String → Bool) (stored : List String)
    (localFiles : List String) (acc : DBState × List SyncOp) :
    DBState × List SyncOp :=
  localFiles.foldl
    (fun acc p =>
      if p ∈ stored then acc
      else if embedOk p then (dbSave acc.1 p, acc.2 ++ [.insertNew p])
      else acc)
    acc

/-- Second loop of `RunSync` ("Processing existing files"): walk the
`GetFilesToSync` snapshot; a row whose path still exists locally is re-read,
re-embedded (failure: log and `continue`) and replaced with
`UpdateFileEmbedding`; a row whose path is gone is removed with
`DeleteFileAndVector`. -/
def processExistingFiles (embedOk : String → Bool) (localPaths : List String)
    (snapshot : List FileRow) (acc : DBState × List SyncOp) :
    DBState × List SyncOp :=
  snapshot.foldl
    (fun acc r =>
      if r.path ∈ localPaths then
        if embedOk r.path then (dbUpdate acc.1 r.id r.path, acc.2 ++ [.reembed r.id r.path])
        else acc
      else (dbDelete acc.1 r.id, acc.2 ++ [.deleteRow r.id r.path]))
    acc

/-- Function `sync.RunSync` with all storage operations succeeding: fetch the local
paths and the stored path set, run the new-file loop, re-fetch the full
row list (this happens *after* the inserts), and run the existing-file
loop.  Returns the final table state and the actions performed. -/
def runSyncModel (embedOk : String → Bool) (localPaths : List String)
    (st : DBState) : DBState × List SyncOp :=
  let stored := dbPaths st
  let acc1 := processNewFiles embedOk stored localPaths (st, [])
  let snapshot := dbFilesToSync acc1.1
  processExistingFiles embedOk localPaths snapshot acc1

/-- A storage-layer call made by `RunSync`, used to name the failing call
when the storage layer errors. -/
inductive StoreCall where
  | save (path : String)
  | update (id : Nat) (path : String)
  | del (id : Nat)
deriving DecidableEq, Repr

/-- New-file loop with a fallible storage layer: a `SaveFileEmbedding`
error is returned immediately (`return fmt.Errorf(...)`), aborting the
sync; embedding errors are still skipped. -/
def processNewFilesE (embedOk : String → Bool) (storeFail : StoreCall → Bool)
    (stored : List String) (localFiles : List String)
    (acc : DBState × List SyncOp) : Except StoreCall (DBState × List SyncOp) :=
  localFiles.foldlM
    (fun acc p =>
      if p ∈ stored then pure acc
      else if embedOk p then
        if storeFail (.save p) then throw (.save p)
        else pure (dbSave acc.1 p, acc.2 ++ [.insertNew p])
      else pure acc)
    acc

/-- Existing-file loop with a fallible storage layer: an
`UpdateFileEmbedding` or `DeleteFileAndVector` error is returned
immediately, aborting the sync; embedding errors are still skipped. -/
def processExistingFilesE (embedOk : String → Bool) (storeFail : StoreCall → Bool)
    (localPaths : List String) (snapshot : List FileRow)
    (acc : DBState × List SyncOp) : Except StoreCall (DBState × List SyncOp) :=
  snapshot.foldlM
    (fun acc r =>
      if r.path ∈ localPaths then
        if embedOk r.path then
          if storeFail (.update r.id r.path) then throw (.update r.id r.path)
          else pure (dbUpdate acc.1 r.id r.path, acc.2 ++ [.reembed r.id r.path])
        else pure acc
      else
        if storeFail (.del r.id) then throw (.del r.id)
        else pure (dbDelete acc.1 r.id, acc.2 ++ [.deleteRow r.id r.path]))
    acc

/-- Function `sync.RunSync` with a fallible storage layer: the first failing
storage call aborts the whole sync and is propagated as the error. -/
def runSyncE (embedOk : String → Bool) (storeFail : StoreCall → Bool)
    (localPaths : List String) (st : DBState) :
    Except StoreCall (DBState × List SyncOp) := do
  let stored := dbPaths st
  let acc1 ← processNewFilesE embedOk storeFail stored localPaths (st, [])
  let snapshot := dbFilesToSync acc1.1
  processExistingFilesE embedOk storeFail localPaths snapshot acc1

/-- Two ascending hits used to witness C10 at a concrete sorted input. -/
def exPair : List SearchResult := [⟨1, "a", 1/10⟩, ⟨2, "b", 2/10⟩]

/-- A single raw hit whose distance exceeds the threshold. -/
def exC3 : List SearchResult := [⟨1, "a", 9/10⟩]

/-- Options with `minResults = 1` and a strict threshold, adaptive off. -/
def optsC3 : SearchOptions := ⟨1/2, 1, 10, false⟩

/-- A single raw hit within the threshold, used to witness C3-amended. -/
def exC3w : List SearchResult := [⟨1, "a", 1/10⟩]

/-- Options with `minResults = 0`, adaptive off, used to witness C3-amended. -/
def optsC3w : SearchOptions := ⟨1/2, 0, 5, false⟩

/-- The five-hit example from the spec: distances
`[0.1, 0.12, 0.13, 0.45, 0.46]`. -/
def exGap5 : List SearchResult :=
  [⟨1, "a", 1/10⟩, ⟨2, "b", 12/100⟩, ⟨3, "c", 13/100⟩, ⟨4, "d", 45/100⟩, ⟨5, "e", 46/100⟩]

/-- Adaptive options with `maxDistance = 0.8` for the five-hit example. -/
def optsGap5 : SearchOptions := ⟨8/10, 2, 20, true⟩

/-- Twenty-one hits: twenty at distance `0` followed by one at `1/2`, so
the only large gap is the twentieth consecutive pair — scanned by the
claim's pair range but not by the code's. -/
def exGap21 : List SearchResult :=
  List.replicate 20 ⟨0, "x", 0⟩ ++ [⟨1, "y", 1/2⟩]

/-- A stored table holding paths `b`, `c`, `d` (ids 1, 2, 3). -/
def stBCD : DBState := ⟨[⟨1, "b"⟩, ⟨2, "c"⟩, ⟨3, "d"⟩], 4⟩

/-- The local file set `{a, b, c}` of the reconciliation example. -/
def localABC : List String := ["a", "b", "c"]

/-- A stored table holding the single path `b` (id 1). -/
def stB : DBState := ⟨[⟨1, "b"⟩], 2⟩

/-- The empty store (next AUTOINCREMENT id 1). -/
def storeEmpty : VecStore.Store := ⟨[], [], 1⟩

/-- A store holding one file row paired with its vector. -/
def storeOne : VecStore.Store := ⟨[(1, "a")], [1], 2⟩

/-! ### Ranker lemmas -/

/-- Closed form of the appending loop: it keeps the within-threshold hits
in order, stopping once the accumulator reaches `maxResults`. -/
theorem appendWithin_eq (th : ℚ) (m : Nat) :
    ∀ (l acc : List SearchResult),
      appendWithin th m acc l =
        acc ++ (l.filter fun r => decide (r.distance ≤ th)).take (m - acc.length) := by
  intro l
  induction l with
  | nil => intro acc; simp [appendWithin]
  | cons r rest ih =>
    intro acc
    by_cases hd : r.distance ≤ th
    · by_cases hl : acc.length < m
      · rw [appendWithin, if_pos ⟨hd, hl⟩, ih]
        have hm : m - acc.length = (m - (acc.length + 1)) + 1 := by omega
        simp [hd, hm, List.take_succ_cons]
      · rw [appendWithin, if_neg (by tauto), ih]
        have hm0 : m - acc.length = 0 := by omega
        have hm1 : m - (acc.length) ≤ 0 := by omega
        simp [hd, hm0]
    · rw [appendWithin, if_neg (by tauto), ih]
      simp [hd]

/-- The filtered list is a take-after-filter against the effective
threshold (adaptive or plain). -/
theorem thresholdFiltered_eq (results : List SearchResult) (opts : SearchOptions) :
    thresholdFiltered results opts =
      (results.filter fun r => decide (r.distance ≤
        (if opts.useAdaptive = true then calculateAdaptiveThreshold results opts.maxDistance
         else opts.maxDistance))).take opts.maxResults := by
  unfold thresholdFiltered
  split <;> simp_all [appendWithin_eq]

theorem thresholdFiltered_length (results : List SearchResult) (opts : SearchOptions) :
    (thresholdFiltered results opts).length ≤ opts.maxResults := by
  rw [thresholdFiltered_eq]
  simp [List.length_take_le]

theorem thresholdFiltered_sublist (results : List SearchResult) (opts : SearchOptions) :
    (thresholdFiltered results opts).Sublist results := by
  rw [thresholdFiltered_eq]
  exact (List.take_sublist _ _).trans (List.filter_sublist _)

theorem thresholdFiltered_mem_le (results : List SearchResult) (opts : SearchOptions)
    (hA : opts.useAdaptive = false) :
    ∀ r ∈ thresholdFiltered results opts, r.distance ≤ opts.maxDistance := by
  intro r hr
  rw [thresholdFiltered_eq] at hr
  simp only [hA, Bool.false_eq_true, if_false] at hr
  have h1 := List.of_mem_filter ((List.take_sublist _ _).subset hr)
  simpa using h1

/-- When the filtered count is below `MinResults`, `filterByDistance`
returns the first `min(MinResults, len(results), MaxResults)` raw hits. -/
theorem filterByDistance_floor (results : List SearchResult) (opts : SearchOptions)
    (hne : results ≠ [])
    (hlt : (thresholdFiltered results opts).length < opts.minResults) :
    filterByDistance results opts =
      results.take (min (min opts.minResults results.length) opts.maxResults) := by
  unfold filterByDistance
  rw [if_neg (by simp [List.isEmpty_iff, hne])]
  rw [if_pos ⟨hlt, List.length_pos.mpr hne⟩]
  simp only []
  congr 1
  split_ifs <;> omega

/-! ### Claims about the ranker -/

/-- C10: for every input hit sequence and options, `filterByDistance`
returns an order-preserving subsequence of its input: every returned
result occurs in the input, the relative order (hence ascending-by-distance
sortedness) is preserved, and the output is never longer than the input. -/
theorem filterByDistance_is_subsequence (results : List SearchResult)
    (opts : SearchOptions) :
    (filterByDistance results opts).Sublist results ∧
    (∀ r ∈ filterByDistance results opts, r ∈ results) ∧
    (filterByDistance results opts).length ≤ results.length ∧
    ((results.Sorted fun a b => a.distance ≤ b.distance) →
      (filterByDistance results opts).Sorted fun a b => a.distance ≤ b.distance) := by
  have hsub : (filterByDistance results opts).Sublist results := by
    unfold filterByDistance
    split
    · exact List.Sublist.refl _
    · simp only []
      split
      · exact List.take_sublist _ _
      · exact thresholdFiltered_sublist _ _
  exact ⟨hsub, fun r hr => hsub.subset hr, hsub.length_le,
    fun hs => List.Pairwise.sublist hsub hs⟩

/-- Witness for C10 at a concrete sorted input. -/
theorem filterByDistance_is_subsequence_witness :
    (filterByDistance exPair defaultSearchOptions).Sublist exPair ∧
    (filterByDistance exPair defaultSearchOptions).Sorted
      (fun a b => a.distance ≤ b.distance) :=
  ⟨(filterByDistance_is_subsequence exPair defaultSearchOptions).1,
   (filterByDistance_is_subsequence exPair defaultSearchOptions).2.2.2
     (by norm_num [exPair, List.sorted_cons])⟩

/-- The one raw hit of `exC3` survives `filterByDistance` through the
minimum-results floor although its distance exceeds `maxDistance`. -/
theorem exC3_eval : filterByDistance exC3 optsC3 = exC3 := by
  norm_num [filterByDistance, thresholdFiltered, appendWithin, exC3, optsC3]

/-- C3 counterexample: with adaptive off it is not true that every
returned item has distance at most `maxDistance` — the minimum-results
floor returns the `9/10` hit although `maxDistance = 1/2`. -/
theorem C3_counterexample :
    ¬ ∀ r ∈ filterByDistance exC3 optsC3, r.distance ≤ optsC3.maxDistance := by
  intro h
  have := h ⟨1, "a", 9/10⟩ (by rw [exC3_eval]; simp [exC3])
  norm_num [optsC3] at this

/-- C3 amended: with adaptive off, `filterByDistance` returns at most
`maxResults` items, and whenever the minimum-results floor does not
trigger every returned item has distance at most `maxDistance`. -/
theorem C3_amended (results : List SearchResult) (opts : SearchOptions)
    (hA : opts.useAdaptive = false) :
    (filterByDistance results opts).length ≤ opts.maxResults ∧
    (opts.minResults ≤ (thresholdFiltered results opts).length →
      ∀ r ∈ filterByDistance results opts, r.distance ≤ opts.maxDistance) := by
  constructor
  · unfold filterByDistance
    split
    · rename_i hemp
      simp only [List.isEmpty_iff] at hemp
      simp [hemp]
    · simp only []
      split
      · rw [List.length_take]
        split_ifs <;> omega
      · exact thresholdFiltered_length _ _
  · intro hge r hr
    unfold filterByDistance at hr
    split at hr
    · rename_i hemp
      simp only [List.isEmpty_iff] at hemp
      simp [hemp] at hr
    · simp only [] at hr
      split at hr
      · rename_i hcond
        omega
      · exact thresholdFiltered_mem_le results opts hA r hr

/-- Witness for the amended C3 at a concrete input where the floor does
not trigger. -/
theorem C3_amended_witness :
    (filterByDistance exC3w optsC3w).length ≤ 5 ∧
    ∀ r ∈ filterByDistance exC3w optsC3w, r.distance ≤ (1:ℚ)/2 :=
  ⟨(C3_amended exC3w optsC3w rfl).1,
   (C3_amended exC3w optsC3w rfl).2 (Nat.zero_le _)⟩

/-- C5: for non-empty raw hits, whenever the threshold-filtered count is
below `minResults`, `filterByDistance` ignores the distance filter and
returns exactly the first `min(minResults, len(rawHits), maxResults)` raw
hits. -/
theorem C5_floor_guarantee (results : List SearchResult) (opts : SearchOptions)
    (hne : results ≠ [])
    (hlt : (thresholdFiltered results opts).length < opts.minResults) :
    filterByDistance results opts =
      results.take (min (min opts.minResults results.length) opts.maxResults) :=
  filterByDistance_floor results opts hne hlt

/-- Witness for C5 at a concrete input: the floor fires (the only raw hit
is beyond the threshold) and the first `min(1, 1, 10)` hits are returned. -/
theorem C5_floor_guarantee_witness :
    filterByDistance exC3 optsC3 = exC3.take (min (min 1 exC3.length) 10) :=
  C5_floor_guarantee exC3 optsC3 (by simp [exC3])
    (by norm_num [thresholdFiltered, appendWithin, exC3, optsC3])

/-- C8: `SearchWithSimilarity` converts the similarity threshold `s` to
the distance threshold `1 - s` before filtering and reports each filtered
distance `d` back as the similarity `1 - d`; the `find` command passes
`minSimilarity = 0.03`, so it filters with distance threshold `0.97`. -/
theorem C8_similarity_conversion :
    (∀ (s : ℚ) (m : Nat), (similaritySearchOptions s m).maxDistance = 1 - s) ∧
    (∀ (hits : List SearchResult) (s : ℚ) (m : Nat),
      searchWithSimilarityRank hits s m =
        (filterByDistance hits (similaritySearchOptions s m)).map
          (fun r => { r with distance := 1 - r.distance })) ∧
    findMinSimilarity = 3/100 ∧
    (∀ hits, findRank hits = searchWithSimilarityRank hits findMinSimilarity findLimit) ∧
    (similaritySearchOptions findMinSimilarity findLimit).maxDistance = 97/100 := by
  refine ⟨fun s m => rfl, fun hits s m => rfl, rfl, fun hits => rfl, ?_⟩
  show (1:ℚ) - 3/100 = 97/100
  norm_num

/-! ### Adaptive threshold fold lemmas -/

/-- The best-gap fold is unchanged when no gap beats the running best. -/
theorem foldBest_skip (g : Nat → ℚ) :
    ∀ (l : List Nat) (b : ℚ × Nat), (∀ j ∈ l, g j ≤ b.1) →
      l.foldl (fun best j => if g j > best.1 then (g j, j) else best) b = b := by
  intro l
  induction l with
  | nil => intro b _; rfl
  | cons x xs ih =>
    intro b hb
    simp only [List.foldl_cons]
    rw [if_neg (not_lt.mpr (hb x (List.mem_cons_self _ _)))]
    exact ih b (fun j hj => hb j (List.mem_cons_of_mem _ hj))

/-- The first component of the best-gap fold is the initial value or one
of the scanned gaps. -/
theorem foldBest_fst (g : Nat → ℚ) :
    ∀ (l : List Nat) (b : ℚ × Nat),
      (l.foldl (fun best j => if g j > best.1 then (g j, j) else best) b).1 = b.1 ∨
      ∃ j ∈ l,
        (l.foldl (fun best j => if g j > best.1 then (g j, j) else best) b).1 = g j := by
  intro l
  induction l with
  | nil => intro b; left; rfl
  | cons x xs ih =>
    intro b
    simp only [List.foldl_cons]
    rcases ih (if g x > b.1 then (g x, x) else b) with h | ⟨j, hj, hx⟩
    · by_cases hc : g x > b.1
      · right
        refine ⟨x, List.mem_cons_self _ _, ?_⟩
        rw [h, if_pos hc]
      · left
        rw [h, if_neg hc]
    · right
      exact ⟨j, List.mem_cons_of_mem _ hj, hx⟩

/-- When gap `i` is the first maximum of the scanned range and positive,
the best-gap fold over `range' 1 n` lands exactly on `(g i, i)`. -/
theorem foldBest_argmax (g : Nat → ℚ) (n i : Nat)
    (h1 : 1 ≤ i) (h2 : i ≤ n)
    (hmax : ∀ j, 1 ≤ j → j ≤ n → g j ≤ g i)
    (hfirst : ∀ j, 1 ≤ j → j < i → g j < g i)
    (hpos : 0 < g i) :
    (List.range' 1 n).foldl (fun best j => if g j > best.1 then (g j, j) else best)
      ((0 : ℚ), (0 : Nat)) = (g i, i) := by
  have e1 : 1 + 1 * (i - 1) = i := by omega
  have e2 : n - i + 1 + (i - 1) = n := by omega
  have h3 := List.range'_append 1 (i - 1) (n - i + 1) 1
  rw [e1, e2] at h3
  have hsplit : List.range' 1 n = List.range' 1 (i - 1) ++ i :: List.range' (i + 1) (n - i) := by
    rw [← h3, List.range'_succ]
  rw [hsplit, List.foldl_append]
  have hb1 : (List.foldl (fun best j => if g j > best.1 then (g j, j) else best)
      ((0 : ℚ), (0 : Nat)) (List.range' 1 (i - 1))).1 < g i := by
    rcases foldBest_fst g (List.range' 1 (i - 1)) ((0 : ℚ), (0 : Nat)) with h | ⟨j, hj, he⟩
    · rw [h]; exact hpos
    · rw [he]
      have hj' := List.mem_range'_1.mp hj
      exact hfirst j (by omega) (by omega)
  simp only [List.foldl_cons]
  rw [if_pos hb1]
  apply foldBest_skip
  intro j hj
  have hj' := List.mem_range'_1.mp hj
  exact hmax j (by omega) (by omega)

/-- Degenerate input: at most one hit yields the fallback threshold. -/
theorem calcAdaptive_small (results : List SearchResult) (maxT : ℚ)
    (h : results.length ≤ 1) : calculateAdaptiveThreshold results maxT = maxT := by
  unfold calculateAdaptiveThreshold
  rw [if_pos h]

/-- If every scanned gap is at most `1/20`, the adaptive threshold falls
back to `maxThreshold`. -/
theorem calcAdaptive_nogap (results : List SearchResult) (maxT : ℚ)
    (h2 : 1 < results.length)
    (hall : ∀ j, 1 ≤ j → j ≤ min results.length 20 - 1 → gapAt results j ≤ 1/20) :
    calculateAdaptiveThreshold results maxT = maxT := by
  unfold calculateAdaptiveThreshold
  rw [if_neg (by omega)]
  simp only []
  split
  · rename_i hcond
    exfalso
    obtain ⟨hgt, -⟩ := hcond
    rcases foldBest_fst (gapAt results)
        (List.range' 1 (min results.length 20 - 1)) ((0 : ℚ), (0 : Nat)) with h | ⟨j, hj, he⟩
    · rw [h] at hgt
      norm_num at hgt
    · rw [he] at hgt
      have hj' := List.mem_range'_1.mp hj
      have := hall j (by omega) (by omega)
      linarith
  · rfl

/-- If gap `i` is the first maximum of the scanned range (`1 ≤ i ≤
min(len, 20) - 1`) and exceeds `1/20`, the adaptive threshold is
`distance[i-1] + gap/2` capped at `maxThreshold`. -/
theorem calcAdaptive_gap (results : List SearchResult) (maxT : ℚ) (i : Nat)
    (h2 : 1 < results.length) (h1 : 1 ≤ i) (hi : i ≤ min results.length 20 - 1)
    (hmax : ∀ j, 1 ≤ j → j ≤ min results.length 20 - 1 → gapAt results j ≤ gapAt results i)
    (hfirst : ∀ j, 1 ≤ j → j < i → gapAt results j < gapAt results i)
    (hbig : gapAt results i > 1/20) :
    calculateAdaptiveThreshold results maxT =
      (if (results.getD (i-1) default).distance + gapAt results i / 2 < maxT
       then (results.getD (i-1) default).distance + gapAt results i / 2
       else maxT) := by
  unfold calculateAdaptiveThreshold
  rw [if_neg (by omega)]
  simp only []
  rw [foldBest_argmax (gapAt results) _ i h1 hi hmax hfirst (by linarith)]
  rw [if_pos ⟨hbig, by omega⟩]

/-- Every hit of `exGap21` before index 20 is the zero-distance row. -/
theorem exGap21_getD_lt20 (j : Nat) (hj : j < 20) :
    exGap21.getD j default = ⟨0, "x", 0⟩ := by
  unfold exGap21
  rw [List.getD_append _ _ _ j (by simp [hj])]
  simp only [List.getD_eq_getElem?_getD, List.getElem?_replicate, hj, if_true,
    Option.getD_some]

/-- The last hit of `exGap21`. -/
theorem exGap21_getD_20 : exGap21.getD 20 default = ⟨1, "y", 1/2⟩ := by
  unfold exGap21
  rw [List.getD_append_right _ _ _ _ (by simp)]
  simp

/-- Scanned gaps of `exGap21` below pair 20 are all zero. -/
theorem exGap21_gap_lt20 (j : Nat) (h1 : 1 ≤ j) (hj : j < 20) :
    gapAt exGap21 j = 0 := by
  unfold gapAt
  rw [exGap21_getD_lt20 j hj, exGap21_getD_lt20 (j-1) (by omega)]
  norm_num

/-- The twentieth consecutive pair of `exGap21` has gap `1/2`. -/
theorem exGap21_gap_20 : gapAt exGap21 20 = 1/2 := by
  unfold gapAt
  rw [exGap21_getD_20, exGap21_getD_lt20 19 (by omega)]
  norm_num

theorem exGap21_length : exGap21.length = 21 := by
  unfold exGap21
  simp

/-- The code's adaptive threshold on `exGap21` stops scanning at pair 19
and falls back to the maximum threshold. -/
theorem exGap21_code_eval : calculateAdaptiveThreshold exGap21 (4/5) = 4/5 := by
  apply calcAdaptive_nogap _ _ (by rw [exGap21_length]; omega)
  intro j hj1 hj2
  rw [exGap21_length] at hj2
  rw [exGap21_gap_lt20 j hj1 (by omega)]
  norm_num

/-- The claim's pair range on `exGap21` reaches pair 20 and produces the
gap-based cutoff `1/4`. -/
theorem exGap21_claim_eval : adaptiveCutoffClaim exGap21 (4/5) = 1/4 := by
  unfold adaptiveCutoffClaim
  rw [if_neg (by rw [exGap21_length]; omega)]
  simp only [exGap21_length]
  have hrange : List.range' 1 (min 20 (21 - 1)) = List.range' 1 19 ++ [20] := by decide
  rw [hrange, List.foldl_append]
  rw [foldBest_skip (gapAt exGap21) (List.range' 1 19) ((0 : ℚ), (0 : Nat))
    (by
      intro j hj
      have hj' := List.mem_range'_1.mp hj
      rw [exGap21_gap_lt20 j (by omega) (by omega)])]
  simp only [List.foldl_cons, List.foldl_nil]
  have hstep :
      (if gapAt exGap21 20 > ((0:ℚ), (0:Nat)).1 then (gapAt exGap21 20, (20:Nat))
       else ((0:ℚ), (0:Nat))) = ((1:ℚ)/2, (20:Nat)) := by
    rw [exGap21_gap_20]
    norm_num
  rw [hstep]
  rw [if_pos (by norm_num)]
  simp only []
  rw [exGap21_getD_lt20 (((1:ℚ)/2, (20:Nat)).2 - 1) (by norm_num)]
  norm_num

/-- The spec's five-hit example: the largest scanned gap is pair 3
(`0.13 → 0.45`), giving cutoff `0.13 + 0.32/2 = 0.29`. -/
theorem exGap5_calc : calculateAdaptiveThreshold exGap5 (8/10) = 29/100 := by
  have h := calcAdaptive_gap exGap5 (8/10) 3
    (by norm_num [exGap5])
    (by norm_num)
    (by norm_num [exGap5])
    (by
      intro j h1 h4
      have hj : j ≤ 4 := by simpa [exGap5] using h4
      interval_cases j <;> norm_num [gapAt, exGap5])
    (by
      intro j h1 h3
      interval_cases j <;> norm_num [gapAt, exGap5])
    (by norm_num [gapAt, exGap5])
  rw [h]
  norm_num [gapAt, exGap5]

/-- On the five-hit example with `maxDistance = 0.8` the adaptive filter
keeps exactly the first three hits. -/
theorem exGap5_filter : filterByDistance exGap5 optsGap5 = exGap5.take 3 := by
  have hth : thresholdFiltered exGap5 optsGap5 = exGap5.take 3 := by
    unfold thresholdFiltered
    rw [if_pos (show optsGap5.useAdaptive = true from rfl)]
    rw [show optsGap5.maxDistance = 8/10 from rfl, exGap5_calc,
      show optsGap5.maxResults = 20 from rfl]
    norm_num [appendWithin, exGap5]
  unfold filterByDistance
  rw [if_neg (by norm_num [exGap5])]
  simp only []
  rw [hth]
  rw [if_neg (by norm_num [exGap5, optsGap5])]

/-- C4 counterexample: the code scans only `min(len, 20) - 1` consecutive
pairs (it stops at `i < 20`), not "the first `min(20, len(rawHits))`
consecutive pairs": on 21 hits whose only large gap is the twentieth pair,
the cutoff prescribed by the claim is `1/4` but the code returns the
fallback `maxDistance = 4/5`. -/
theorem C4_counterexample :
    calculateAdaptiveThreshold exGap21 (4/5) = 4/5 ∧
    adaptiveCutoffClaim exGap21 (4/5) = 1/4 ∧
    ((4:ℚ)/5 ≠ (1:ℚ)/4) :=
  ⟨exGap21_code_eval, exGap21_claim_eval, by norm_num⟩

/-- C4 amended: the adaptive cutoff scans the consecutive pairs `(i-1, i)`
for `1 ≤ i ≤ min(len, 20) - 1` (one pair fewer than the claim's
`min(20, len)` when 21 or more hits exist).  With at most one hit, or when
no scanned gap exceeds `0.05`, the cutoff is `maxDistance`; when the first
maximal scanned gap `g` at pair `i` exceeds `0.05`, the cutoff is
`distance[i-1] + g/2` if that is below `maxDistance` and `maxDistance`
otherwise.  On the spec's example `[0.1, 0.12, 0.13, 0.45, 0.46]` with
`maxDistance = 0.8` the cutoff is `0.29` and exactly the first three hits
are kept. -/
theorem C4_amended :
    (∀ (results : List SearchResult) (maxT : ℚ), results.length ≤ 1 →
      calculateAdaptiveThreshold results maxT = maxT) ∧
    (∀ (results : List SearchResult) (maxT : ℚ), 1 < results.length →
      (∀ j, 1 ≤ j → j ≤ min results.length 20 - 1 → gapAt results j ≤ 1/20) →
      calculateAdaptiveThreshold results maxT = maxT) ∧
    (∀ (results : List SearchResult) (maxT : ℚ) (i : Nat), 1 < results.length →
      1 ≤ i → i ≤ min results.length 20 - 1 →
      (∀ j, 1 ≤ j → j ≤ min results.length 20 - 1 → gapAt results j ≤ gapAt results i) →
      (∀ j, 1 ≤ j → j < i → gapAt results j < gapAt results i) →
      gapAt results i > 1/20 →
      calculateAdaptiveThreshold results maxT =
        (if (results.getD (i-1) default).distance + gapAt results i / 2 < maxT
         then (results.getD (i-1) default).distance + gapAt results i / 2
         else maxT)) ∧
    calculateAdaptiveThreshold exGap5 (8/10) = 29/100 ∧
    filterByDistance exGap5 optsGap5 = exGap5.take 3 :=
  ⟨calcAdaptive_small, calcAdaptive_nogap, calcAdaptive_gap, exGap5_calc, exGap5_filter⟩

/-- Witness for the amended C4 at a concrete single-hit input. -/
theorem C4_amended_witness : calculateAdaptiveThreshold exC3 (1/2) = 1/2 :=
  C4_amended.1 exC3 (1/2) (by norm_num [exC3])

/-! ### Reconciler lemmas -/

theorem wf_dbSave (st : DBState) (p : String) (h : wfDB st) : wfDB (dbSave st p) := by
  obtain ⟨h1, h2⟩ := h
  constructor
  · simp only [dbSave, List.map_append, List.map_cons, List.map_nil]
    rw [List.nodup_append]
    refine ⟨h1, List.nodup_singleton _, ?_⟩
    intro a ha hb
    simp only [List.mem_singleton] at hb
    subst hb
    obtain ⟨r, hr, hid⟩ := List.mem_map.mp ha
    exact absurd hid (Nat.ne_of_lt (h2 r hr))
  · intro r hr
    simp only [dbSave, List.mem_append, List.mem_singleton] at hr
    rcases hr with hr | hr
    · exact Nat.lt_succ_of_lt (h2 r hr)
    · subst hr; exact Nat.lt_succ_self _

theorem wf_dbDelete (st : DBState) (fid : Nat) (h : wfDB st) : wfDB (dbDelete st fid) := by
  obtain ⟨h1, h2⟩ := h
  constructor
  · simp only [dbDelete]
    exact List.Nodup.sublist ((List.filter_sublist _).map _) h1
  · intro r hr
    simp only [dbDelete, List.mem_filter] at hr
    exact h2 r hr.1

theorem wf_dbUpdate (st : DBState) (fid : Nat) (p : String) (h : wfDB st) :
    wfDB (dbUpdate st fid p) :=
  wf_dbSave _ _ (wf_dbDelete _ _ h)

/-- Actions of the new-file loop: one `insertNew` per local path that is
neither stored nor failing to embed. -/
theorem processNewFiles_ops (e : String → Bool) (S : List String) :
    ∀ (L : List String) (st : DBState) (ops : List SyncOp),
      (processNewFiles e S L (st, ops)).2 = ops ++ L.filterMap (fun p =>
        if p ∈ S then none else if e p then some (.insertNew p) else none) := by
  intro L
  induction L with
  | nil => intro st ops; simp [processNewFiles]
  | cons p L ih =>
    intro st ops
    simp only [processNewFiles, List.foldl_cons] at *
    by_cases hS : p ∈ S
    · rw [if_pos hS]
      simp [ih, hS]
    · rw [if_neg hS]
      by_cases he : e p
      · rw [if_pos he]
        simp [ih, hS, he]
      · rw [if_neg he]
        simp only [Bool.not_eq_true] at he
        simp [ih, hS, he]

/-- State of the new-file loop: fresh rows are appended for exactly the
local paths that are new and embeddable, and well-formedness persists. -/
theorem processNewFiles_state (e : String → Bool) (S : List String) :
    ∀ (L : List String) (st : DBState) (ops : List SyncOp),
      ∃ new : List FileRow,
        (processNewFiles e S L (st, ops)).1.rows = st.rows ++ new ∧
        (∀ r ∈ new, r.path ∈ L ∧ r.path ∉ S ∧ e r.path = true) ∧
        (∀ q ∈ L, q ∉ S → e q = true → ∃ r ∈ new, r.path = q) ∧
        (wfDB st → wfDB (processNewFiles e S L (st, ops)).1) := by
  intro L
  induction L with
  | nil =>
    intro st ops
    exact ⟨[], by simp [processNewFiles], by simp, by simp, fun h => by
      simpa [processNewFiles] using h⟩
  | cons p L ih =>
    intro st ops
    simp only [processNewFiles, List.foldl_cons] at *
    by_cases hS : p ∈ S
    · rw [if_pos hS]
      obtain ⟨new, hrows, hmem, hex, hwf⟩ := ih st ops
      refine ⟨new, hrows, ?_, ?_, hwf⟩
      · intro r hr
        obtain ⟨ha, hb, hc⟩ := hmem r hr
        exact ⟨List.mem_cons_of_mem _ ha, hb, hc⟩
      · intro q hq hqS hqe
        rcases List.mem_cons.mp hq with rfl | hq
        · exact absurd hS hqS
        · exact hex q hq hqS hqe
    · rw [if_neg hS]
      by_cases he : e p
      · rw [if_pos he]
        obtain ⟨new, hrows, hmem, hex, hwf⟩ := ih (dbSave st p) (ops ++ [.insertNew p])
        refine ⟨⟨st.nextId, p⟩ :: new, ?_, ?_, ?_, ?_⟩
        · rw [hrows]
          simp [dbSave]
        · intro r hr
          rcases List.mem_cons.mp hr with rfl | hr
          · exact ⟨List.mem_cons_self _ _, hS, he⟩
          · obtain ⟨ha, hb, hc⟩ := hmem r hr
            exact ⟨List.mem_cons_of_mem _ ha, hb, hc⟩
        · intro q hq hqS hqe
          rcases List.mem_cons.mp hq with rfl | hq
          · exact ⟨⟨st.nextId, q⟩, List.mem_cons_self _ _, rfl⟩
          · obtain ⟨r, hr, hrq⟩ := hex q hq hqS hqe
            exact ⟨r, List.mem_cons_of_mem _ hr, hrq⟩
        · intro h
          exact hwf (wf_dbSave st p h)
      · rw [if_neg he]
        simp only [Bool.not_eq_true] at he
        obtain ⟨new, hrows, hmem, hex, hwf⟩ := ih st ops
        refine ⟨new, hrows, ?_, ?_, hwf⟩
        · intro r hr
          obtain ⟨ha, hb, hc⟩ := hmem r hr
          exact ⟨List.mem_cons_of_mem _ ha, hb, hc⟩
        · intro q hq hqS hqe
          rcases List.mem_cons.mp hq with rfl | hq
          · rw [he] at hqe; cases hqe
          · exact hex q hq hqS hqe

/-- Actions of the existing-file loop: one action per snapshot row —
`reembed` when the path is still local and embeds, `deleteRow` when the
path is gone, nothing when the re-embed fails. -/
theorem processExistingFiles_ops (e : String → Bool) (L : List String) :
    ∀ (pending : List FileRow) (st : DBState) (ops : List SyncOp),
      (processExistingFiles e L pending (st, ops)).2 = ops ++ pending.filterMap (fun r =>
        if r.path ∈ L then (if e r.path then some (.reembed r.id r.path) else none)
        else some (.deleteRow r.id r.path)) := by
  intro pending
  induction pending with
  | nil => intro st ops; simp [processExistingFiles]
  | cons r rest ih =>
    intro st ops
    simp only [processExistingFiles, List.foldl_cons] at *
    by_cases hL : r.path ∈ L
    · rw [if_pos hL]
      by_cases he : e r.path
      · rw [if_pos he]
        simp [ih, hL, he]
      · rw [if_neg he]
        simp only [Bool.not_eq_true] at he
        simp [ih, hL, he]
    · rw [if_neg hL]
      simp [ih, hL]

/-- State of the existing-file loop, processing a pending snapshot whose
rows are present in the current table with distinct ids: well-formedness
persists; a path remains stored iff some current row carries it and is
either not pending or still local; rows not in the snapshot survive
untouched; and pending rows whose re-embed fails are kept unchanged. -/
theorem processExistingFiles_state (e : String → Bool) (L : List String) :
    ∀ (pending : List FileRow) (st : DBState) (ops : List SyncOp),
      wfDB st →
      (∀ r ∈ pending, r ∈ st.rows) →
      ((pending.map (·.id)).Nodup) →
      wfDB (processExistingFiles e L pending (st, ops)).1 ∧
      (∀ p, p ∈ dbPaths (processExistingFiles e L pending (st, ops)).1 ↔
        ∃ x ∈ st.rows, x.path = p ∧ (x.id ∈ pending.map (·.id) → p ∈ L)) ∧
      (∀ x ∈ st.rows, x.id ∉ pending.map (·.id) →
        x ∈ (processExistingFiles e L pending (st, ops)).1.rows) ∧
      (∀ x ∈ pending, x.path ∈ L → e x.path = false →
        x ∈ (processExistingFiles e L pending (st, ops)).1.rows) := by
  intro pending
  induction pending with
  | nil =>
    intro st ops hwf _ _
    refine ⟨hwf, fun p => ?_, fun x hx _ => hx, fun x hx => absurd hx (List.not_mem_nil _)⟩
    simp only [processExistingFiles, List.foldl_nil, dbPaths, List.mem_map,
      List.map_nil, List.not_mem_nil, false_implies, and_true]
  | cons r rest ih =>
    intro st ops hwf hpend hnd
    have hrst : r ∈ st.rows := hpend r (List.mem_cons_self _ _)
    have hndrest : (rest.map (·.id)).Nodup := by
      simp only [List.map_cons] at hnd
      exact hnd.of_cons
    have hrid_not_rest : r.id ∉ rest.map (·.id) := by
      simp only [List.map_cons] at hnd
      exact (List.nodup_cons.mp hnd).1
    simp only [processExistingFiles, List.foldl_cons] at *
    by_cases hL : r.path ∈ L
    · by_cases he : e r.path
      · rw [if_pos hL, if_pos he]
        have hwf' : wfDB (dbUpdate st r.id r.path) := wf_dbUpdate st r.id r.path hwf
        have hrows' : (dbUpdate st r.id r.path).rows =
            st.rows.filter (fun x => x.id ≠ r.id) ++ [⟨st.nextId, r.path⟩] := rfl
        have hpend' : ∀ x ∈ rest, x ∈ (dbUpdate st r.id r.path).rows := by
          intro x hx
          have hxst := hpend x (List.mem_cons_of_mem _ hx)
          have hxid : x.id ≠ r.id := fun hc =>
            hrid_not_rest (by rw [← hc]; exact List.mem_map_of_mem _ hx)
          rw [hrows']
          exact List.mem_append_left _ (List.mem_filter.mpr ⟨hxst, by simp [hxid]⟩)
        obtain ⟨ihwf, ihiff, ihun, ihkeep⟩ :=
          ih (dbUpdate st r.id r.path) (ops ++ [.reembed r.id r.path]) hwf' hpend' hndrest
        refine ⟨ihwf, ?_, ?_, ?_⟩
        · intro p
          rw [ihiff p]
          constructor
          · rintro ⟨x, hx, rfl, hcond⟩
            rw [hrows'] at hx
            rcases List.mem_append.mp hx with hx | hx
            · rw [List.mem_filter] at hx
              obtain ⟨hxst, hxid⟩ := hx
              have hxid' : x.id ≠ r.id := by simpa using hxid
              refine ⟨x, hxst, rfl, fun hin => ?_⟩
              apply hcond
              simp only [List.map_cons, List.mem_cons] at hin
              rcases hin with h | h
              · exact absurd h hxid'
              · exact h
            · rw [List.mem_singleton] at hx
              subst hx
              exact ⟨r, hrst, rfl, fun _ => hL⟩
          · rintro ⟨x, hx, rfl, hcond⟩
            by_cases hxid : x.id = r.id
            · have hxr : x = r := List.inj_on_of_nodup_map hwf.1 hx hrst hxid
              refine ⟨⟨st.nextId, r.path⟩, ?_, by rw [hxr], fun hin => ?_⟩
              · rw [hrows']
                exact List.mem_append_right _ (List.mem_singleton.mpr rfl)
              · exfalso
                obtain ⟨y, hy, hyid⟩ := List.mem_map.mp hin
                have hyid' : y.id = st.nextId := hyid
                have := hwf.2 y (hpend y (List.mem_cons_of_mem _ hy))
                omega
            · refine ⟨x, ?_, rfl, fun hin => hcond ?_⟩
              · rw [hrows']
                exact List.mem_append_left _ (List.mem_filter.mpr ⟨hx, by simp [hxid]⟩)
              · simp only [List.map_cons, List.mem_cons]
                exact Or.inr hin
        · intro x hxst hxnotin
          have hxid : x.id ≠ r.id := fun hc =>
            hxnotin (by simp only [List.map_cons, List.mem_cons]; exact Or.inl hc)
          apply ihun x
          · rw [hrows']
            exact List.mem_append_left _ (List.mem_filter.mpr ⟨hxst, by simp [hxid]⟩)
          · intro hc
            exact hxnotin (by simp only [List.map_cons, List.mem_cons]; exact Or.inr hc)
        · intro x hx hxL hxe
          rcases List.mem_cons.mp hx with rfl | hx
          · simp [he] at hxe
          · exact ihkeep x hx hxL hxe
      · rw [if_pos hL, if_neg he]
        simp only [Bool.not_eq_true] at he
        obtain ⟨ihwf, ihiff, ihun, ihkeep⟩ :=
          ih st ops hwf (fun x hx => hpend x (List.mem_cons_of_mem _ hx)) hndrest
        refine ⟨ihwf, ?_, ?_, ?_⟩
        · intro p
          rw [ihiff p]
          constructor
          · rintro ⟨x, hx, rfl, hcond⟩
            refine ⟨x, hx, rfl, fun hin => ?_⟩
            simp only [List.map_cons, List.mem_cons] at hin
            rcases hin with h | h
            · have hxr : x = r := List.inj_on_of_nodup_map hwf.1 hx hrst h
              rw [hxr]
              exact hL
            · exact hcond h
          · rintro ⟨x, hx, rfl, hcond⟩
            refine ⟨x, hx, rfl, fun hin => hcond ?_⟩
            simp only [List.map_cons, List.mem_cons]
            exact Or.inr hin
        · intro x hxst hxnotin
          exact ihun x hxst
            (fun hc => hxnotin (by simp only [List.map_cons, List.mem_cons]; exact Or.inr hc))
        · intro x hx hxL2 hxe
          rcases List.mem_cons.mp hx with hxr | hx
          · rw [hxr]
            exact ihun r hrst hrid_not_rest
          · exact ihkeep x hx hxL2 hxe
    · rw [if_neg hL]
      have hwf' : wfDB (dbDelete st r.id) := wf_dbDelete st r.id hwf
      have hrows' : (dbDelete st r.id).rows = st.rows.filter (fun x => x.id ≠ r.id) := rfl
      have hpend' : ∀ x ∈ rest, x ∈ (dbDelete st r.id).rows := by
        intro x hx
        have hxst := hpend x (List.mem_cons_of_mem _ hx)
        have hxid : x.id ≠ r.id := fun hc =>
          hrid_not_rest (by rw [← hc]; exact List.mem_map_of_mem _ hx)
        rw [hrows']
        exact List.mem_filter.mpr ⟨hxst, by simp [hxid]⟩
      obtain ⟨ihwf, ihiff, ihun, ihkeep⟩ :=
        ih (dbDelete st r.id) (ops ++ [.deleteRow r.id r.path]) hwf' hpend' hndrest
      refine ⟨ihwf, ?_, ?_, ?_⟩
      · intro p
        rw [ihiff p]
        constructor
        · rintro ⟨x, hx, rfl, hcond⟩
          rw [hrows', List.mem_filter] at hx
          obtain ⟨hxst, hxid⟩ := hx
          have hxid' : x.id ≠ r.id := by simpa using hxid
          refine ⟨x, hxst, rfl, fun hin => ?_⟩
          apply hcond
          simp only [List.map_cons, List.mem_cons] at hin
          rcases hin with h | h
          · exact absurd h hxid'
          · exact h
        · rintro ⟨x, hx, rfl, hcond⟩
          by_cases hxid : x.id = r.id
          · have hxr : x = r := List.inj_on_of_nodup_map hwf.1 hx hrst hxid
            exfalso
            apply hL
            rw [← hxr]
            exact hcond (by simp only [List.map_cons, List.mem_cons]; exact Or.inl hxid)
          · refine ⟨x, ?_, rfl, fun hin => hcond ?_⟩
            · rw [hrows']
              exact List.mem_filter.mpr ⟨hx, by simp [hxid]⟩
            · simp only [List.map_cons, List.mem_cons]
              exact Or.inr hin
      · intro x hxst hxnotin
        have hxid : x.id ≠ r.id := fun hc =>
          hxnotin (by simp only [List.map_cons, List.mem_cons]; exact Or.inl hc)
        apply ihun x
        · rw [hrows']
          exact List.mem_filter.mpr ⟨hxst, by simp [hxid]⟩
        · intro hc
          exact hxnotin (by simp only [List.map_cons, List.mem_cons]; exact Or.inr hc)
      · intro x hx hxL hxe
        rcases List.mem_cons.mp hx with rfl | hx
        · exact absurd hxL hL
        · exact ihkeep x hx hxL hxe

/-- Pair-argument form of `processExistingFiles_ops`. -/
theorem processExistingFiles_ops2 (e : String → Bool) (L : List String)
    (pending : List FileRow) (acc : DBState × List SyncOp) :
    (processExistingFiles e L pending acc).2 = acc.2 ++ pending.filterMap (fun r =>
      if r.path ∈ L then (if e r.path then some (.reembed r.id r.path) else none)
      else some (.deleteRow r.id r.path)) := by
  obtain ⟨st, ops⟩ := acc
  exact processExistingFiles_ops e L pending st ops

/-- Pair-argument form of `processExistingFiles_state`. -/
theorem processExistingFiles_state2 (e : String → Bool) (L : List String)
    (pending : List FileRow) (acc : DBState × List SyncOp)
    (hwf : wfDB acc.1) (hpend : ∀ r ∈ pending, r ∈ acc.1.rows)
    (hnd : (pending.map (·.id)).Nodup) :
    wfDB (processExistingFiles e L pending acc).1 ∧
    (∀ p, p ∈ dbPaths (processExistingFiles e L pending acc).1 ↔
      ∃ x ∈ acc.1.rows, x.path = p ∧ (x.id ∈ pending.map (·.id) → p ∈ L)) ∧
    (∀ x ∈ acc.1.rows, x.id ∉ pending.map (·.id) →
      x ∈ (processExistingFiles e L pending acc).1.rows) ∧
    (∀ x ∈ pending, x.path ∈ L → e x.path = false →
      x ∈ (processExistingFiles e L pending acc).1.rows) := by
  obtain ⟨st, ops⟩ := acc
  exact processExistingFiles_state e L pending st ops hwf hpend hnd

/-- Closed form of the actions performed by `RunSync`: the new-file
inserts, then one action per row of the post-insert snapshot. -/
theorem runSyncModel_ops (e : String → Bool) (L : List String) (st : DBState) :
    (runSyncModel e L st).2 =
      L.filterMap (fun p => if p ∈ dbPaths st then none
        else if e p then some (.insertNew p) else none) ++
      ((processNewFiles e (dbPaths st) L (st, [])).1.rows).filterMap (fun r =>
        if r.path ∈ L then (if e r.path then some (.reembed r.id r.path) else none)
        else some (.deleteRow r.id r.path)) := by
  unfold runSyncModel dbFilesToSync
  simp only []
  rw [processExistingFiles_ops2 e L _ _]
  rw [processNewFiles_ops e (dbPaths st) L st []]
  simp

/-- The stored path set after a completed sync: exactly the local paths
that were already stored or embeddable, and well-formedness persists. -/
theorem runSync_paths (e : String → Bool) (L : List String) (st : DBState)
    (hwf : wfDB st) :
    wfDB (runSyncModel e L st).1 ∧
    ∀ p, p ∈ dbPaths (runSyncModel e L st).1 ↔
      p ∈ L ∧ (p ∈ dbPaths st ∨ e p = true) := by
  obtain ⟨new, hrows, hmem, hex, hwfp⟩ := processNewFiles_state e (dbPaths st) L st []
  have hwf1 : wfDB (processNewFiles e (dbPaths st) L (st, [])).1 := hwfp hwf
  unfold runSyncModel dbFilesToSync
  simp only []
  obtain ⟨h1, h2, h3, h4⟩ := processExistingFiles_state2 e L
    (processNewFiles e (dbPaths st) L (st, [])).1.rows
    (processNewFiles e (dbPaths st) L (st, [])) hwf1 (fun r hr => hr) hwf1.1
  refine ⟨h1, fun p => ?_⟩
  rw [h2 p]
  constructor
  · rintro ⟨x, hx, rfl, hcond⟩
    have hxL : x.path ∈ L := hcond (List.mem_map_of_mem _ hx)
    refine ⟨hxL, ?_⟩
    rw [hrows] at hx
    rcases List.mem_append.mp hx with hx | hx
    · exact Or.inl (List.mem_map_of_mem _ hx)
    · exact Or.inr (hmem x hx).2.2
  · rintro ⟨hpL, hp⟩
    by_cases hpS : p ∈ dbPaths st
    · obtain ⟨x, hx, hxp⟩ := List.mem_map.mp hpS
      refine ⟨x, ?_, hxp, fun _ => hpL⟩
      rw [hrows]
      exact List.mem_append_left _ hx
    · rcases hp with hp | hp
      · exact absurd hp hpS
      · obtain ⟨x, hx, hxp⟩ := hex p hpL hpS hp
        refine ⟨x, ?_, hxp, fun _ => hpL⟩
        rw [hrows]
        exact List.mem_append_right _ hx

/-- C9: running `Sync` twice with the same local file set leaves the
stored path set unchanged in membership. -/
theorem C9_sync_idempotent (e : String → Bool) (L : List String) (st : DBState)
    (hwf : wfDB st) (p : String) :
    p ∈ dbPaths (runSyncModel e L (runSyncModel e L st).1).1 ↔
      p ∈ dbPaths (runSyncModel e L st).1 := by
  have h1 := runSync_paths e L st hwf
  have h2 := runSync_paths e L (runSyncModel e L st).1 h1.1
  rw [h2.2 p, h1.2 p]
  tauto

/-- Witness for C9 at the concrete `{a,b,c}` / `{b,c,d}` instance. -/
theorem C9_sync_idempotent_witness :
    ("a" ∈ dbPaths (runSyncModel (fun _ => true) localABC
        (runSyncModel (fun _ => true) localABC stBCD).1).1 ↔
      "a" ∈ dbPaths (runSyncModel (fun _ => true) localABC stBCD).1) :=
  C9_sync_idempotent (fun _ => true) localABC stBCD (by decide) "a"

/-- C1 amended: with every embedding succeeding, `Sync` inserts exactly
the local paths not yet stored, deletes exactly the stored rows whose path
is no longer local, and re-embeds the rows whose path is local — which,
because the snapshot is fetched after the insert pass, covers the stored
survivors `S ∩ L` and additionally the rows just inserted for `L \ S`. -/
theorem C1_amended (L : List String) (st : DBState) :
    (∀ p, SyncOp.insertNew p ∈ (runSyncModel (fun _ => true) L st).2 ↔
      (p ∈ L ∧ p ∉ dbPaths st)) ∧
    (∀ i p, SyncOp.deleteRow i p ∈ (runSyncModel (fun _ => true) L st).2 →
      p ∈ dbPaths st ∧ p ∉ L) ∧
    (∀ r ∈ st.rows, r.path ∉ L →
      SyncOp.deleteRow r.id r.path ∈ (runSyncModel (fun _ => true) L st).2) ∧
    (∀ i p, SyncOp.reembed i p ∈ (runSyncModel (fun _ => true) L st).2 → p ∈ L) ∧
    (∀ r ∈ st.rows, r.path ∈ L →
      SyncOp.reembed r.id r.path ∈ (runSyncModel (fun _ => true) L st).2) ∧
    (∀ p ∈ L, p ∉ dbPaths st →
      ∃ i, SyncOp.reembed i p ∈ (runSyncModel (fun _ => true) L st).2) := by
  obtain ⟨new, hrows, hmem, hex, -⟩ :=
    processNewFiles_state (fun _ => true) (dbPaths st) L st []
  have hops := runSyncModel_ops (fun _ => true) L st
  rw [hrows] at hops
  refine ⟨?_, ?_, ?_, ?_, ?_, ?_⟩
  · intro p
    rw [hops]
    simp only [List.mem_append, List.mem_filterMap]
    constructor
    · rintro (⟨q, hq, hqe⟩ | ⟨r, hr, hre⟩)
      · by_cases hqS : q ∈ dbPaths st
        · simp [hqS] at hqe
        · simp only [hqS, if_false, if_true] at hqe
          simp only [Option.some.injEq, SyncOp.insertNew.injEq] at hqe
          subst hqe
          exact ⟨hq, hqS⟩
      · by_cases hrL : r.path ∈ L
        · simp [hrL] at hre
        · simp [hrL] at hre
    · rintro ⟨hpL, hpS⟩
      exact Or.inl ⟨p, hpL, by simp [hpS]⟩
  · intro i p hm
    rw [hops] at hm
    simp only [List.mem_append, List.mem_filterMap] at hm
    rcases hm with ⟨q, hq, hqe⟩ | ⟨r, hr, hre⟩
    · by_cases hqS : q ∈ dbPaths st <;> simp [hqS] at hqe
    · by_cases hrL : r.path ∈ L
      · simp [hrL] at hre
      · simp only [hrL, if_false, Option.some.injEq, SyncOp.deleteRow.injEq] at hre
        obtain ⟨-, hrp⟩ := hre
        rcases hr with hr | hr
        · exact ⟨by rw [← hrp]; exact List.mem_map_of_mem _ hr, by rw [← hrp]; exact hrL⟩
        · exact absurd (hmem r hr).1 hrL
  · intro r hr hrL
    rw [hops]
    refine List.mem_append_right _
      (List.mem_filterMap.mpr ⟨r, List.mem_append_left _ hr, ?_⟩)
    simp [hrL]
  · intro i p hm
    rw [hops] at hm
    simp only [List.mem_append, List.mem_filterMap] at hm
    rcases hm with ⟨q, hq, hqe⟩ | ⟨r, hr, hre⟩
    · by_cases hqS : q ∈ dbPaths st <;> simp [hqS] at hqe
    · by_cases hrL : r.path ∈ L
      · simp only [hrL, if_true, Option.some.injEq, SyncOp.reembed.injEq] at hre
        obtain ⟨-, hrp⟩ := hre
        rw [← hrp]
        exact hrL
      · simp [hrL] at hre
  · intro r hr hrL
    rw [hops]
    refine List.mem_append_right _
      (List.mem_filterMap.mpr ⟨r, List.mem_append_left _ hr, ?_⟩)
    simp [hrL]
  · intro p hpL hpS
    obtain ⟨r, hrnew, hrp⟩ := hex p hpL hpS rfl
    refine ⟨r.id, ?_⟩
    rw [hops]
    refine List.mem_append_right _
      (List.mem_filterMap.mpr ⟨r, List.mem_append_right _ hrnew, ?_⟩)
    rw [hrp]
    simp [hpL]

/-- C1 counterexample: on local `{a,b,c}` against stored `{b,c,d}` the
sync not only re-embeds `b` and `c` — because the snapshot pass runs after
the inserts, the freshly inserted `a` (not in `S ∩ L`) is re-embedded as
well, refuting "re-embeds exactly the files in `S ∩ L` and no others".
(`a` is embedded as new, `d` is deleted, `a` is never deleted, `d` is
never re-embedded.) -/
theorem C1_counterexample :
    (runSyncModel (fun _ => true) localABC stBCD).2 =
      [.insertNew "a", .reembed 1 "b", .reembed 2 "c",
       .deleteRow 3 "d", .reembed 4 "a"] ∧
    SyncOp.reembed 4 "a" ∈ (runSyncModel (fun _ => true) localABC stBCD).2 ∧
    "a" ∉ dbPaths stBCD := by
  refine ⟨by decide, by decide, by decide⟩

/-- Witness for the amended C1 at the `{a,b,c}` / `{b,c,d}` instance. -/
theorem C1_amended_witness :
    SyncOp.insertNew "a" ∈ (runSyncModel (fun _ => true) localABC stBCD).2 ∧
    SyncOp.deleteRow 3 "d" ∈ (runSyncModel (fun _ => true) localABC stBCD).2 ∧
    SyncOp.reembed 1 "b" ∈ (runSyncModel (fun _ => true) localABC stBCD).2 :=
  ⟨((C1_amended localABC stBCD).1 "a").mpr ⟨by decide, by decide⟩,
   (C1_amended localABC stBCD).2.2.1 ⟨3, "d"⟩ (by decide) (by decide),
   (C1_amended localABC stBCD).2.2.2.2.1 ⟨1, "b"⟩ (by decide) (by decide)⟩

/-! ### Fallible-storage lemmas -/

/-- With a never-failing storage layer the fallible new-file loop returns
exactly the pure loop's result. -/
theorem processNewFilesE_noFail (e : String → Bool) (S : List String) :
    ∀ (L : List String) (acc : DBState × List SyncOp),
      processNewFilesE e (fun _ => false) S L acc =
        .ok (processNewFiles e S L acc) := by
  intro L
  induction L with
  | nil => intro acc; rfl
  | cons p L ih =>
    intro acc
    simp only [processNewFilesE, processNewFiles, List.foldlM_cons, List.foldl_cons]
    by_cases hS : p ∈ S
    · rw [if_pos hS, if_pos hS, pure_bind]
      exact ih acc
    · by_cases he : e p
      · rw [if_neg hS, if_neg hS, if_pos he, if_pos he,
          if_neg Bool.false_ne_true, pure_bind]
        exact ih _
      · rw [if_neg hS, if_neg hS, if_neg he, if_neg he, pure_bind]
        exact ih acc

/-- With a never-failing storage layer the fallible existing-file loop
returns exactly the pure loop's result. -/
theorem processExistingFilesE_noFail (e : String → Bool) (L : List String) :
    ∀ (pending : List FileRow) (acc : DBState × List SyncOp),
      processExistingFilesE e (fun _ => false) L pending acc =
        .ok (processExistingFiles e L pending acc) := by
  intro pending
  induction pending with
  | nil => intro acc; rfl
  | cons r rest ih =>
    intro acc
    simp only [processExistingFilesE, processExistingFiles, List.foldlM_cons,
      List.foldl_cons]
    by_cases hL : r.path ∈ L
    · by_cases he : e r.path
      · rw [if_pos hL, if_pos hL, if_pos he, if_pos he,
          if_neg Bool.false_ne_true, pure_bind]
        exact ih _
      · rw [if_pos hL, if_pos hL, if_neg he, if_neg he, pure_bind]
        exact ih acc
    · rw [if_neg hL, if_neg hL, if_neg Bool.false_ne_true, pure_bind]
      exact ih _

/-- With a never-failing storage layer `RunSync` completes and returns the
pure model's result, whatever the embedding oracle does. -/
theorem runSyncE_noFail (e : String → Bool) (L : List String) (st : DBState) :
    runSyncE e (fun _ => false) L st = .ok (runSyncModel e L st) := by
  unfold runSyncE
  simp only []
  rw [processNewFilesE_noFail e (dbPaths st) L (st, [])]
  show processExistingFilesE e (fun _ => false) L
      (dbFilesToSync (processNewFiles e (dbPaths st) L (st, [])).1)
      (processNewFiles e (dbPaths st) L (st, [])) = _
  exact processExistingFilesE_noFail e L _ _

/-- A monadic fold over `Except` only errors with a value one of its step
applications errored with. -/
theorem foldlM_error_oracle {α β γ : Type} (f : β → α → Except γ β) (P : γ → Prop)
    (hf : ∀ b a c, f b a = .error c → P c) :
    ∀ (l : List α) (b : β) (c : γ), l.foldlM f b = .error c → P c := by
  intro l
  induction l with
  | nil =>
    intro b c h
    exact Except.noConfusion h
  | cons a l ih =>
    intro b c h
    rw [List.foldlM_cons] at h
    cases hfa : f b a with
    | error c' =>
      rw [hfa] at h
      have h2 : (Except.error c' : Except γ β) = Except.error c := h
      injection h2 with h3
      subst h3
      exact hf b a c' hfa
    | ok b' =>
      rw [hfa] at h
      exact ih b' c h

/-- Any error the fallible new-file loop returns names a storage call the
storage oracle failed. -/
theorem processNewFilesE_error (e : String → Bool) (sf : StoreCall → Bool)
    (S L : List String) (acc : DBState × List SyncOp) (c : StoreCall)
    (h : processNewFilesE e sf S L acc = .error c) : sf c = true := by
  refine foldlM_error_oracle _ (fun c => sf c = true) ?_ L acc c h
  intro b a c' hba
  simp only [] at hba
  by_cases hS : a ∈ S
  · rw [if_pos hS] at hba
    exact Except.noConfusion hba
  · rw [if_neg hS] at hba
    by_cases he : e a
    · rw [if_pos he] at hba
      by_cases hsf : sf (.save a)
      · rw [if_pos hsf] at hba
        have h2 : (Except.error (StoreCall.save a) :
            Except StoreCall (DBState × List SyncOp)) = .error c' := hba
        injection h2 with h3
        rw [← h3]
        exact hsf
      · rw [if_neg hsf] at hba
        exact Except.noConfusion hba
    · rw [if_neg he] at hba
      exact Except.noConfusion hba

/-- Any error the fallible existing-file loop returns names a storage
call the storage oracle failed. -/
theorem processExistingFilesE_error (e : String → Bool) (sf : StoreCall → Bool)
    (L : List String) (pending : List FileRow) (acc : DBState × List SyncOp)
    (c : StoreCall)
    (h : processExistingFilesE e sf L pending acc = .error c) : sf c = true := by
  refine foldlM_error_oracle _ (fun c => sf c = true) ?_ pending acc c h
  intro b a c' hba
  simp only [] at hba
  by_cases hL : a.path ∈ L
  · rw [if_pos hL] at hba
    by_cases he : e a.path
    · rw [if_pos he] at hba
      by_cases hsf : sf (.update a.id a.path)
      · rw [if_pos hsf] at hba
        have h2 : (Except.error (StoreCall.update a.id a.path) :
            Except StoreCall (DBState × List SyncOp)) = .error c' := hba
        injection h2 with h3
        rw [← h3]
        exact hsf
      · rw [if_neg hsf] at hba
        exact Except.noConfusion hba
    · rw [if_neg he] at hba
      exact Except.noConfusion hba
  · rw [if_neg hL] at hba
    by_cases hsf : sf (.del a.id)
    · rw [if_pos hsf] at hba
      have h2 : (Except.error (StoreCall.del a.id) :
          Except StoreCall (DBState × List SyncOp)) = .error c' := hba
      injection h2 with h3
      rw [← h3]
      exact hsf
    · rw [if_neg hsf] at hba
      exact Except.noConfusion hba

/-- Any error `runSyncE` propagates names a storage call the storage
oracle failed: only storage-layer failures abort the sync. -/
theorem runSyncE_error (e : String → Bool) (sf : StoreCall → Bool)
    (L : List String) (st : DBState) (c : StoreCall)
    (h : runSyncE e sf L st = .error c) : sf c = true := by
  unfold runSyncE at h
  simp only [] at h
  cases h1 : processNewFilesE e sf (dbPaths st) L (st, []) with
  | error c' =>
    rw [h1] at h
    have h2 : (Except.error c' : Except StoreCall (DBState × List SyncOp)) =
        .error c := h
    injection h2 with h3
    subst h3
    exact processNewFilesE_error e sf _ L _ c' h1
  | ok acc1 =>
    rw [h1] at h
    have h2 : processExistingFilesE e sf L (dbFilesToSync acc1.1) acc1 =
        .error c := h
    exact processExistingFilesE_error e sf L _ acc1 c h2

/-- A local file that is new but fails to embed is skipped entirely: it
is not stored afterwards and no sync action mentions it. -/
theorem runSync_skipped_file (e : String → Bool) (L : List String) (st : DBState)
    (hwf : wfDB st) (p : String) (_hpL : p ∈ L) (hpS : p ∉ dbPaths st)
    (hpe : e p = false) :
    p ∉ dbPaths (runSyncModel e L st).1 ∧
    ∀ op ∈ (runSyncModel e L st).2, op.path ≠ p := by
  constructor
  · intro hmem'
    obtain ⟨-, hchar⟩ := runSync_paths e L st hwf
    rw [hchar p] at hmem'
    rcases hmem'.2 with h | h
    · exact hpS h
    · rw [hpe] at h
      cases h
  · intro op hop
    rw [runSyncModel_ops] at hop
    obtain ⟨new, hrows, hmem, -, -⟩ := processNewFiles_state e (dbPaths st) L st []
    rw [hrows] at hop
    simp only [List.mem_append, List.mem_filterMap] at hop
    rcases hop with ⟨q, hq, hqe⟩ | ⟨r, hr, hre⟩
    · by_cases hqS : q ∈ dbPaths st
      · simp [hqS] at hqe
      · by_cases hqe' : e q
        · simp only [hqS, if_false, hqe', if_true, Option.some.injEq] at hqe
          rw [← hqe]
          simp only [SyncOp.path]
          intro hcontr
          rw [hcontr, hpe] at hqe'
          exact Bool.false_ne_true hqe'
        · simp [hqS, hqe'] at hqe
    · by_cases hrL : r.path ∈ L
      · by_cases hre' : e r.path
        · simp only [hrL, if_true, hre', Option.some.injEq] at hre
          rw [← hre]
          simp only [SyncOp.path]
          intro hcontr
          rw [hcontr, hpe] at hre'
          exact Bool.false_ne_true hre'
        · simp [hrL, hre'] at hre
      · simp only [hrL, if_false, Option.some.injEq] at hre
        rw [← hre]
        simp only [SyncOp.path]
        rcases hr with hr | hr
        · intro hcontr
          apply hpS
          rw [← hcontr]
          exact List.mem_map_of_mem _ hr
        · exact absurd (hmem r hr).1 hrL

/-- C6: per-file embedding (or read) failures are skipped — the sync
completes, the failed file's indexed state is unchanged (an existing row
is kept; a new file is neither stored nor acted on) — while any
storage-layer failure aborts the whole sync and is propagated: an error
result always names a failing storage call, and a concrete failing
`UpdateFileEmbedding` aborts a concrete sync. -/
theorem C6_error_handling :
    (∀ (e : String → Bool) (L : List String) (st : DBState),
      runSyncE e (fun _ => false) L st = .ok (runSyncModel e L st)) ∧
    (∀ (e : String → Bool) (L : List String) (st : DBState), wfDB st →
      ∀ r ∈ st.rows, r.path ∈ L → e r.path = false →
        r ∈ (runSyncModel e L st).1.rows) ∧
    (∀ (e : String → Bool) (L : List String) (st : DBState) (p : String), wfDB st →
      p ∈ L → p ∉ dbPaths st → e p = false →
      p ∉ dbPaths (runSyncModel e L st).1 ∧
      ∀ op ∈ (runSyncModel e L st).2, op.path ≠ p) ∧
    (∀ (e : String → Bool) (sf : StoreCall → Bool) (L : List String) (st : DBState)
      (c : StoreCall), runSyncE e sf L st = .error c → sf c = true) ∧
    runSyncE (fun _ => true) (fun c => decide (c = StoreCall.update 1 "b")) ["b"] stB =
      .error (StoreCall.update 1 "b") := by
  refine ⟨runSyncE_noFail, ?_,
    fun e L st p hwf hpL hpS hpe => runSync_skipped_file e L st hwf p hpL hpS hpe,
    runSyncE_error, rfl⟩
  intro e L st hwf r hr hrL hre
  obtain ⟨new, hrows, -, -, hwfp⟩ := processNewFiles_state e (dbPaths st) L st []
  have hwf1 := hwfp hwf
  unfold runSyncModel dbFilesToSync
  simp only []
  obtain ⟨-, -, -, hkeep⟩ := processExistingFiles_state2 e L
    (processNewFiles e (dbPaths st) L (st, [])).1.rows
    (processNewFiles e (dbPaths st) L (st, [])) hwf1 (fun x hx => hx) hwf1.1
  apply hkeep r ?_ hrL hre
  rw [hrows]
  exact List.mem_append_left _ hr

/-- Witness for C6: a concrete sync with a failing embedding completes,
keeping the failed file's row unchanged. -/
theorem C6_error_handling_witness :
    runSyncE (fun _ => false) (fun _ => false) ["b"] stB =
      .ok (runSyncModel (fun _ => false) ["b"] stB) ∧
    (⟨1, "b"⟩ : FileRow) ∈ (runSyncModel (fun _ => false) ["b"] stB).1.rows :=
  ⟨C6_error_handling.1 (fun _ => false) ["b"] stB,
   C6_error_handling.2.1 (fun _ => false) ["b"] stB (by decide) ⟨1, "b"⟩ (by decide)
     (by decide) (by decide)⟩

/-! ### Store-invariant and embedding-response claims -/

/-- C2 counterexample: `SaveFileEmbedding` is not transactional — its two
inserts are separate auto-committed statements, so a failure after the
file-row insert (one statement completed) leaves an orphan file row with
no vector, breaking the no-orphans invariant. -/
theorem C2_counterexample :
    VecStore.inv storeEmpty ∧
    VecStore.saveFileEmbeddingRun storeEmpty "a" 1 =
      ⟨[(1, "a")], [], 2⟩ ∧
    ¬ VecStore.inv (VecStore.saveFileEmbeddingRun storeEmpty "a" 1) :=
  ⟨by decide, by decide, by decide⟩

/-- C2 amended: replacing (`UpdateFileEmbedding`) and deleting
(`DeleteFileAndVector`) each run in one atomic transaction and preserve
the no-orphans invariant at every failure point; inserting a new file
(`SaveFileEmbedding`) preserves it only when both of its separate
statements succeed. -/
theorem C2_amended (s : VecStore.Store) (fid : Nat) (p : String) (k : Nat)
    (hinv : VecStore.inv s) :
    VecStore.inv (VecStore.updateFileEmbeddingRun s fid p k) ∧
    VecStore.inv (VecStore.deleteFileAndVectorRun s fid k) ∧
    (2 ≤ k → VecStore.inv (VecStore.saveFileEmbeddingRun s p k)) := by
  obtain ⟨hfv, hvf⟩ := hinv
  refine ⟨?_, ?_, ?_⟩
  · unfold VecStore.updateFileEmbeddingRun
    split
    · exact ⟨hfv, hvf⟩
    · constructor
      · intro r hr
        simp only [VecStore.insVec, VecStore.insFile, VecStore.delFile, VecStore.delVec,
          List.mem_append, List.mem_filter, List.mem_singleton] at hr ⊢
        rcases hr with ⟨hr, hne⟩ | hr
        · have hne' : r.1 ≠ fid := by simpa using hne
          exact Or.inl ⟨hfv r hr, by simp [hne']⟩
        · subst hr
          exact Or.inr rfl
      · intro v hv
        simp only [VecStore.insVec, VecStore.insFile, VecStore.delFile, VecStore.delVec,
          List.mem_append, List.mem_filter, List.mem_singleton] at hv ⊢
        rcases hv with ⟨hv, hne⟩ | hv
        · have hne' : v ≠ fid := by simpa using hne
          obtain ⟨q, hq⟩ := hvf v hv
          exact ⟨q, Or.inl ⟨hq, by simp [hne']⟩⟩
        · subst hv
          exact ⟨p, Or.inr rfl⟩
  · unfold VecStore.deleteFileAndVectorRun
    split
    · exact ⟨hfv, hvf⟩
    · constructor
      · intro r hr
        simp only [VecStore.delFile, VecStore.delVec, List.mem_filter] at hr ⊢
        obtain ⟨hr, hne⟩ := hr
        exact ⟨hfv r hr, hne⟩
      · intro v hv
        simp only [VecStore.delFile, VecStore.delVec, List.mem_filter] at hv ⊢
        obtain ⟨hv, hne⟩ := hv
        obtain ⟨q, hq⟩ := hvf v hv
        exact ⟨q, hq, hne⟩
  · intro hk
    unfold VecStore.saveFileEmbeddingRun
    rw [if_neg (by omega), if_neg (by omega)]
    constructor
    · intro r hr
      simp only [VecStore.insVec, VecStore.insFile, List.mem_append,
        List.mem_singleton] at hr ⊢
      rcases hr with hr | hr
      · exact Or.inl (hfv r hr)
      · subst hr
        exact Or.inr rfl
    · intro v hv
      simp only [VecStore.insVec, VecStore.insFile, List.mem_append,
        List.mem_singleton] at hv ⊢
      rcases hv with hv | hv
      · obtain ⟨q, hq⟩ := hvf v hv
        exact ⟨q, Or.inl hq⟩
      · subst hv
        exact ⟨p, Or.inr rfl⟩

/-- Witness for the amended C2 on a concrete one-row store. -/
theorem C2_amended_witness :
    VecStore.inv (VecStore.updateFileEmbeddingRun storeOne 1 "b" 5) ∧
    VecStore.inv (VecStore.deleteFileAndVectorRun storeOne 1 5) ∧
    VecStore.inv (VecStore.saveFileEmbeddingRun storeOne "b" 5) :=
  ⟨(C2_amended storeOne 1 "b" 5 (by decide)).1,
   (C2_amended storeOne 1 "b" 5 (by decide)).2.1,
   (C2_amended storeOne 1 "b" 5 (by decide)).2.2 (by omega)⟩

/-- C7: an empty-but-successful provider response yields the nil pointer
from `GetEmbeddings`; the sync/build per-file step then passes it to
`SaveFileEmbedding`, which dereferences it (run-time panic) instead of
logging and skipping as it does for a provider error — the operation
crashes rather than continuing. -/
theorem C7_empty_embedding_crashes :
    emptyEmbeddingResponse.getEmbeddings = none ∧
    syncFileStep (some emptyEmbeddingResponse) = .crashedNilDeref ∧
    syncFileStep none = .skippedProviderError ∧
    FileStepOutcome.crashedNilDeref ≠ FileStepOutcome.skippedProviderError :=
  ⟨rfl, rfl, rfl, by decide⟩
